import Mathlib

/-!
# GIF frame separation: the frame reconstruction pass

A shallow embedding of `processGifFrames` and `drawBackground` of `main.go`
together with the parts of Go's `image`, `image/color`, `image/draw` and
`image/gif` packages that the two functions call.

Conventions of the embedding

* Go `int` coordinates are `Int`; `uint8`, `uint16` and `uint32` values are
  `Nat` with the wrap-around written out (`u8`, `u16`, `u32`).
* A run-time panic of the Go program is the `Except.error` result. The panics
  modelled are those of the statements of `main.go` itself: an index out of
  range and a failed type assertion.
* `*image.RGBA` values are addresses into an explicit heap, so that the
  pointer assignments `prevFrame = bg` and `bg = prevFrame` alias as in Go.
* The pixel buffer of an image is a map from points to pixels; an
  `*image.Paletted` frame is seen through the `image.Image` interface
  (`Bounds` and `At`), which is all `draw.Draw` uses of it.
* Values of the library types are taken to be well formed, as the GIF decoder
  and the constructors of package `image` make them: non-nil frames with a
  rectangle `Min <= Max` and pixel indices inside the frame's palette.
-/

namespace GifFrames

/-! ## Machine integers -/

/-- Conversion to `uint8`. -/
def u8 (n : Nat) : Nat := n % 256

/-- Conversion to `uint16`. -/
def u16 (n : Nat) : Nat := n % 65536

/-- Wrap-around of `uint32` arithmetic. -/
def u32 (n : Nat) : Nat := n % 4294967296

/-! ## Package image: points and rectangles -/

namespace image

/-- Go `image.Point`. -/
structure Point where
  X : Int
  Y : Int
deriving DecidableEq, Repr

/-- Go `image.Rectangle`: the points with `Min.X <= X < Max.X`, `Min.Y <= Y < Max.Y`. -/
structure Rectangle where
  Min : Point
  Max : Point
deriving DecidableEq, Repr

/-- Go `image.ZR`, the zero rectangle. -/
def ZR : Rectangle := ⟨⟨0, 0⟩, ⟨0, 0⟩⟩

/-- Go `Point.Add`. -/
def Point.Add (p q : Point) : Point := ⟨p.X + q.X, p.Y + q.Y⟩

/-- Go `Point.Sub`. -/
def Point.Sub (p q : Point) : Point := ⟨p.X - q.X, p.Y - q.Y⟩

/-- Go `Point.In`: whether `p` lies in `r`. -/
def Point.In (p : Point) (r : Rectangle) : Bool :=
  decide (r.Min.X ≤ p.X) && decide (p.X < r.Max.X) &&
  decide (r.Min.Y ≤ p.Y) && decide (p.Y < r.Max.Y)

/-- Go `Rectangle.Empty`. -/
def Rectangle.Empty (r : Rectangle) : Bool :=
  decide (r.Min.X ≥ r.Max.X) || decide (r.Min.Y ≥ r.Max.Y)

/-- Go `Rectangle.Add`: translation by `p`. -/
def Rectangle.Add (r : Rectangle) (p : Point) : Rectangle :=
  ⟨⟨r.Min.X + p.X, r.Min.Y + p.Y⟩, ⟨r.Max.X + p.X, r.Max.Y + p.Y⟩⟩

/-- Go `Rectangle.Intersect`: the largest rectangle contained in both, `ZR` when
the two do not overlap. -/
def Rectangle.Intersect (r s : Rectangle) : Rectangle :=
  let minX := if r.Min.X < s.Min.X then s.Min.X else r.Min.X
  let minY := if r.Min.Y < s.Min.Y then s.Min.Y else r.Min.Y
  let maxX := if r.Max.X > s.Max.X then s.Max.X else r.Max.X
  let maxY := if r.Max.Y > s.Max.Y then s.Max.Y else r.Max.Y
  let t : Rectangle := ⟨⟨minX, minY⟩, ⟨maxX, maxY⟩⟩
  if t.Empty then ZR else t

/-- Go `Rectangle.In`: whether every point of `r` is in `s`. -/
def Rectangle.In (r s : Rectangle) : Bool :=
  if r.Empty then true
  else decide (s.Min.X ≤ r.Min.X) && decide (r.Max.X ≤ s.Max.X) &&
       decide (s.Min.Y ≤ r.Min.Y) && decide (r.Max.Y ≤ s.Max.Y)

end image

/-! ## Package color -/

namespace color

/-- Go `color.Color`, represented by what its `RGBA()` method returns: four
`uint32` values, alpha-premultiplied, each meant to lie in `[0, 0xffff]`. -/
structure Color where
  r : Nat
  g : Nat
  b : Nat
  a : Nat
deriving DecidableEq, Repr

/-- Go `color.RGBA64`: four `uint16` channels, alpha-premultiplied. -/
structure RGBA64 where
  R : Nat
  G : Nat
  B : Nat
  A : Nat
deriving DecidableEq, Repr

/-- Go `color.RGBA`: four `uint8` channels, alpha-premultiplied; the four bytes
that one pixel occupies in the `Pix` buffer of an `image.RGBA`. -/
structure RGBA where
  R : Nat
  G : Nat
  B : Nat
  A : Nat
deriving DecidableEq, Repr

/-- Go `color.Palette`. -/
abbrev Palette := List Color

/-- Go `color.Model`, as far as the type assertion `.(color.Palette)` tells its
dynamic types apart: a palette, or anything else (another model, or nil). -/
inductive Model where
  | Palette (p : Palette)
  | other
deriving DecidableEq, Repr

/-- Go `color.NRGBA.RGBA()`: the premultiplied 16-bit form of a colour given
with straight (non-premultiplied) 8-bit channels. -/
def NRGBA (R G B A : Nat) : Color :=
  { r := u32 (u32 (u8 R * 257 * u8 A) / 255)
    g := u32 (u32 (u8 G * 257 * u8 A) / 255)
    b := u32 (u32 (u8 B * 257 * u8 A) / 255)
    a := u8 A * 257 }

/-- Go `color.RGBA.RGBA()`: the 16-bit form of a premultiplied 8-bit colour. -/
def RGBA.toColor (c : RGBA) : Color :=
  { r := u8 c.R * 257, g := u8 c.G * 257, b := u8 c.B * 257, a := u8 c.A * 257 }

end color

/-! ## Package image: images -/

namespace image

/-- Go `image.RGBA`. `Pix p` holds the four bytes
`Pix[PixOffset(p.X, p.Y) : PixOffset(p.X, p.Y) + 4]` of the pixel at `p`. -/
structure RGBA where
  Pix : Point → color.RGBA
  Rect : Rectangle

/-- Go `(*image.RGBA).Bounds`. -/
def RGBA.Bounds (p : RGBA) : Rectangle := p.Rect

/-- Go `image.NewRGBA`: an image over `r` whose buffer is all zero. -/
def NewRGBA (r : Rectangle) : RGBA :=
  { Pix := fun _ => ⟨0, 0, 0, 0⟩, Rect := r }

/-- Go `*image.Paletted` as `draw.Draw` sees it: its rectangle and, for every
point, the palette colour `Palette[Pix[PixOffset(x, y)]]` that `At` returns. -/
structure Paletted where
  At : Point → color.Color
  Rect : Rectangle

/-- Go `(*image.Paletted).Bounds`. -/
def Paletted.Bounds (p : Paletted) : Rectangle := p.Rect

/-- Go `(*image.Paletted).RGBA64At`: the colour at a point, each channel
converted to `uint16`. -/
def Paletted.RGBA64At (p : Paletted) (pt : Point) : color.RGBA64 :=
  let c := p.At pt
  ⟨u16 c.r, u16 c.g, u16 c.b, u16 c.a⟩

/-- Go `image.Uniform`: an infinite-sized image of one colour. -/
structure Uniform where
  C : color.Color

/-- Go `image.Config`; only the colour model is read by the program. -/
structure Config where
  ColorModel : color.Model

end image

/-! ## Package draw -/

namespace draw

/-- The constant `m = 1<<16 - 1` of `draw.go`. -/
def m : Nat := 65535

/-- Go `draw.clip` (without mask): clips `r` against the destination bounds and
the source bounds, and moves `sp` along with `r.Min`. -/
def clip (dstBounds : image.Rectangle) (r : image.Rectangle)
    (srcBounds : image.Rectangle) (sp : image.Point) : image.Rectangle × image.Point :=
  let orig := r.Min
  let r1 := r.Intersect dstBounds
  let r2 := r1.Intersect (srcBounds.Add (orig.Sub sp))
  let dx := r2.Min.X - orig.X
  let dy := r2.Min.Y - orig.Y
  (r2, ⟨sp.X + dx, sp.Y + dy⟩)

/-- One pixel of the `Over` loop of `drawRGBA`: destination bytes `d`, source
colour `srgba` (as returned by `RGBA64At`).
`a := (m - srgba.A) * 0x101; d[k] = uint8((d[k]*a/m + srgba.K) >> 8)`.
This is the loop for sources with an `RGBA64At` method (Go 1.17 on); the loop
for other sources, `(d[k]*a + s.K*m) / m >> 8`, gives the same bytes whenever
the source channels do not exceed the source alpha. -/
def overPixel (d : color.RGBA) (srgba : color.RGBA64) : color.RGBA :=
  let a := u32 ((m - srgba.A) * 257)
  { R := u8 (u32 (u32 (d.R * a) / m + srgba.R) / 256)
    G := u8 (u32 (u32 (d.G * a) / m + srgba.G) / 256)
    B := u8 (u32 (u32 (d.B * a) / m + srgba.B) / 256)
    A := u8 (u32 (u32 (d.A * a) / m + srgba.A) / 256) }

/-- Go `drawRGBA` for a source with `RGBA64At` and `op = Over`, no mask: every
point of the (already clipped) rectangle `r` is blended with the source pixel
aligned with it; `sp` in the source is aligned with `r.Min`. -/
def drawRGBA (dst : image.RGBA) (r : image.Rectangle) (src : image.Paletted)
    (sp : image.Point) : image.RGBA :=
  { dst with
    Pix := fun p =>
      if p.In r then overPixel (dst.Pix p) (src.RGBA64At ((p.Sub r.Min).Add sp))
      else dst.Pix p }

/-- Go `drawFillSrc`: every pixel of `r` becomes the high bytes of the colour. -/
def drawFillSrc (dst : image.RGBA) (r : image.Rectangle) (sr sg sb sa : Nat) : image.RGBA :=
  { dst with
    Pix := fun p =>
      if p.In r then ⟨u8 (sr / 256), u8 (sg / 256), u8 (sb / 256), u8 (sa / 256)⟩
      else dst.Pix p }

/-- Go `draw.Draw(dst, r, src, sp, draw.Over)` for a `*image.Paletted` source:
clip, return when nothing is left, otherwise the generic `drawRGBA` loop. -/
def DrawOver (dst : image.RGBA) (r : image.Rectangle) (src : image.Paletted)
    (sp : image.Point) : image.RGBA :=
  let c := clip dst.Bounds r src.Bounds sp
  if c.1.Empty then dst else drawRGBA dst c.1 src c.2

/-- Go `draw.Draw(dst, r, src, sp, draw.Src)` for a `*image.Uniform` source:
clip against the destination, then `drawFillSrc`. The source is unbounded (its
`Bounds`, a thousand million pixels to each side of the origin, exceed every
canvas of a GIF, whose sides are 16-bit numbers). -/
def DrawSrc (dst : image.RGBA) (r : image.Rectangle) (src : image.Uniform)
    (_sp : image.Point) : image.RGBA :=
  let r1 := r.Intersect dst.Bounds
  if r1.Empty then dst else drawFillSrc dst r1 src.C.r src.C.g src.C.b src.C.a

end draw

/-! ## Package gif -/

namespace gif

/-- Go `gif.DisposalNone`. -/
def DisposalNone : Nat := 1

/-- Go `gif.DisposalBackground`. -/
def DisposalBackground : Nat := 2

/-- Go `gif.DisposalPrevious`. -/
def DisposalPrevious : Nat := 3

/-- Go `gif.GIF`, the fields the program reads: the frames, one disposal byte
per frame, the configuration and the background colour index. -/
structure GIF where
  Image : List image.Paletted
  Disposal : List Nat
  Config : image.Config
  BackgroundIndex : Nat

end gif

/-! ## Run-time panics and the heap -/

/-- The run-time panics the two functions can raise. -/
inductive Panic where
  | indexOutOfRange (index length : Nat)
  | typeAssertion
deriving DecidableEq, Repr

/-- Address of an `image.RGBA` object; a `*image.RGBA` that may be nil is an
`Option Ptr`. -/
abbrev Ptr := Nat

/-- The `image.RGBA` objects allocated so far, by address. -/
structure Heap where
  cells : List image.RGBA

namespace Heap

/-- The heap before any allocation. -/
def empty : Heap := ⟨[]⟩

/-- Allocation of a new object: its address and the extended heap. -/
def alloc (h : Heap) (v : image.RGBA) : Ptr × Heap :=
  (h.cells.length, ⟨h.cells ++ [v]⟩)

/-- The object at an address. -/
def read (h : Heap) (p : Ptr) : image.RGBA :=
  h.cells.getD p (image.NewRGBA image.ZR)

/-- Replacement of the object at an address. -/
def write (h : Heap) (p : Ptr) (v : image.RGBA) : Heap :=
  ⟨h.cells.set p v⟩

end Heap

/-! ## main.go -/

/-- Go built-in `copy(dst.Pix, src.Pix)` between the buffers of two images of
the same bounds (hence of the same length and stride): every byte is copied. -/
def copyPix (dst src : image.RGBA) : image.RGBA :=
  { dst with Pix := src.Pix }

/-- The expression `g.Config.ColorModel.(color.Palette)[g.BackgroundIndex]` of
`drawBackground`: a failed type assertion and an index out of range panic. -/
def bgColor (g : gif.GIF) : Except Panic color.Color :=
  match g.Config.ColorModel with
  | .other => .error .typeAssertion
  | .Palette pal =>
    match pal[g.BackgroundIndex]? with
    | none => .error (.indexOutOfRange g.BackgroundIndex pal.length)
    | some c => .ok c

/-- The function `drawBackground` of main.go: fills `img.Bounds()` of the image at address
`img` with the background colour, with `draw.Src`. -/
def drawBackground (img : Ptr) (g : gif.GIF) (h : Heap) : Except Panic Heap :=
  match bgColor g with
  | .error e => .error e
  | .ok c =>
    .ok (h.write img (draw.DrawSrc (h.read img) (h.read img).Bounds ⟨c⟩ ⟨0, 0⟩))

/-- The local variables of `processGifFrames` that live across iterations,
with the heap. -/
structure LoopState where
  heap : Heap
  frames : List Ptr
  prevFrame : Option Ptr
  bg : Ptr

/-- The `if i > 0 { switch g.Disposal[i-1] { ... } }` statement. -/
def disposeStep (g : gif.GIF) (i : Nat) (st : LoopState) : Except Panic LoopState :=
  if i > 0 then
    match g.Disposal[i - 1]? with
    | none => .error (.indexOutOfRange (i - 1) g.Disposal.length)
    | some d =>
      if d = gif.DisposalBackground then
        match drawBackground st.bg g st.heap with
        | .error e => .error e
        | .ok h => .ok { st with heap := h }
      else if d = gif.DisposalPrevious then
        match st.prevFrame with
        | some p => .ok { st with bg := p }
        | none => .ok st
      else .ok st
  else .ok st

/-- The statements of the loop body after the switch: draw the frame on `bg`,
copy `bg` into a new image, append it, and set `prevFrame = bg`. -/
def drawStep (srcImg : image.Paletted) (st : LoopState) : LoopState :=
  let h1 := st.heap.write st.bg
    (draw.DrawOver (st.heap.read st.bg) srcImg.Bounds srcImg srcImg.Bounds.Min)
  let a := h1.alloc (image.NewRGBA (h1.read st.bg).Bounds)
  let frameCopy := a.1
  let h2 := a.2.write frameCopy (copyPix (a.2.read frameCopy) (a.2.read st.bg))
  { heap := h2, frames := st.frames ++ [frameCopy], prevFrame := some st.bg, bg := st.bg }

/-- One iteration of `for i, srcImg := range g.Image`. -/
def loopBody (g : gif.GIF) (i : Nat) (srcImg : image.Paletted) (st : LoopState) :
    Except Panic LoopState :=
  match disposeStep g i st with
  | .error e => .error e
  | .ok st1 => .ok (drawStep srcImg st1)

/-- The loop `for i, srcImg := range g.Image`, from index `i` on. -/
def loop (g : gif.GIF) : Nat → List image.Paletted → LoopState → Except Panic LoopState
  | _, [], st => .ok st
  | i, srcImg :: rest, st =>
    match loopBody g i srcImg st with
    | .error e => .error e
    | .ok st1 => loop g (i + 1) rest st1

/-- The state at loop entry: `bg := image.NewRGBA(bounds)`, `frames` and
`prevFrame` nil. -/
def initState (bounds : image.Rectangle) : LoopState :=
  let a := Heap.empty.alloc (image.NewRGBA bounds)
  { heap := a.2, frames := [], prevFrame := none, bg := a.1 }

/-- The function `processGifFrames` of main.go. The result lists the images the returned
pointers refer to when the function returns. -/
def processGifFrames (g : gif.GIF) : Except Panic (List image.RGBA) :=
  match g.Image[0]? with
  | none => .error (.indexOutOfRange 0 g.Image.length)
  | some im0 =>
    match loop g 0 g.Image (initState im0.Bounds) with
    | .error e => .error e
    | .ok st => .ok (st.frames.map st.heap.read)

/-! ## The run of the loop on canvas values

The functions below describe the same run without the heap: the canvas is a
value, and the result lists the canvas after each draw. They are related to
`processGifFrames` by `processGifFrames_eq_realize`. -/

/-- The effect of the disposal switch on the canvas `*bg`. -/
def dispose (g : gif.GIF) (i : Nat) (canvas : image.RGBA) : Except Panic image.RGBA :=
  if i > 0 then
    match g.Disposal[i - 1]? with
    | none => .error (.indexOutOfRange (i - 1) g.Disposal.length)
    | some d =>
      if d = gif.DisposalBackground then
        match bgColor g with
        | .error e => .error e
        | .ok c => .ok (draw.DrawSrc canvas canvas.Bounds ⟨c⟩ ⟨0, 0⟩)
      else .ok canvas
  else .ok canvas

/-- The draw statement of the loop body, on the canvas. -/
def drawFrame (canvas : image.RGBA) (srcImg : image.Paletted) : image.RGBA :=
  draw.DrawOver canvas srcImg.Bounds srcImg srcImg.Bounds.Min

/-- The canvases after each draw, for the frames from index `i` on. -/
def realize (g : gif.GIF) : Nat → List image.Paletted → image.RGBA →
    Except Panic (List image.RGBA)
  | _, [], _ => .ok []
  | i, srcImg :: rest, canvas =>
    match dispose g i canvas with
    | .error e => .error e
    | .ok c =>
      match realize g (i + 1) rest (drawFrame c srcImg) with
      | .error e => .error e
      | .ok l => .ok (drawFrame c srcImg :: l)

/-- The last canvas of a list of canvases that follow `c`. -/
def lastCanvas (c : image.RGBA) (l : List image.RGBA) : image.RGBA :=
  l.foldl (fun _ x => x) c

/-- The loop state in which the canvas is the object at address 0, the
frame copies made so far are the objects at addresses 1, 2, ... in order. -/
def mkState (canvas : image.RGBA) (out : List image.RGBA) (pf : Option Ptr) : LoopState :=
  { heap := ⟨canvas :: out⟩, frames := List.range' 1 out.length, prevFrame := pf, bg := 0 }

/-- The input cut down to its first `n` frames. -/
def firstFrames (g : gif.GIF) (n : Nat) : gif.GIF :=
  { g with Image := g.Image.take n }

/-- The loop state of `processGifFrames` after its first `n` iterations. -/
def stateAfter (g : gif.GIF) (n : Nat) : Except Panic LoopState :=
  match g.Image[0]? with
  | none => .error (.indexOutOfRange 0 g.Image.length)
  | some im0 => loop g 0 (g.Image.take n) (initState im0.Bounds)

/-- The canvas `*bg` at the end of iteration `i`, that is right after
`g.Image[i]` was drawn. -/
def canvasAfter (g : gif.GIF) (i : Nat) : Except Panic image.RGBA :=
  match stateAfter g (i + 1) with
  | .error e => .error e
  | .ok st => .ok (st.heap.read st.bg)

/-- The disposal switch of iteration `i` raises no panic: the disposal byte it
reads exists and, when it asks for the background, the colour lookup works. -/
def DisposeOk (g : gif.GIF) (i : Nat) : Prop :=
  i = 0 ∨ ∃ d, g.Disposal[i - 1]? = some d ∧
    (d = gif.DisposalBackground → ∃ col, bgColor g = .ok col)

/-- The bytes stored for a colour by `drawFillSrc`: the high byte of each
16-bit channel. -/
def color.Color.to8 (c : color.Color) : color.RGBA :=
  ⟨u8 (c.r / 256), u8 (c.g / 256), u8 (c.b / 256), u8 (c.a / 256)⟩

/-- The pixels of an image inside its rectangle, row by row: the colours its
`Pix` buffer holds. -/
def image.RGBA.pixels (img : image.RGBA) : List color.RGBA :=
  (List.range (img.Rect.Max.Y - img.Rect.Min.Y).toNat).flatMap fun dy =>
    (List.range (img.Rect.Max.X - img.Rect.Min.X).toNat).map fun dx =>
      img.Pix ⟨img.Rect.Min.X + dx, img.Rect.Min.Y + dy⟩

/-- The result of a run with every realized frame replaced by its pixels. -/
def pixelsOf (r : Except Panic (List image.RGBA)) : Except Panic (List (List color.RGBA)) :=
  match r with
  | .error e => .error e
  | .ok out => .ok (out.map image.RGBA.pixels)

/-- The pixel at point `p` of realized frame `i` of a run, when the run
returned and has such a frame. -/
def pixelAt (r : Except Panic (List image.RGBA)) (i : Nat) (p : image.Point) :
    Option color.RGBA :=
  match r with
  | .error _ => none
  | .ok out => out[i]?.map fun img => img.Pix p

/-! ## Concrete inputs -/

/-- A frame over `r` whose pixels all have the colour `c`. -/
def solidFrame (r : image.Rectangle) (c : color.Color) : image.Paletted :=
  { At := fun _ => c, Rect := r }

/-- Fully covering red, as returned by `RGBA()`. -/
def red : color.Color := ⟨65535, 0, 0, 65535⟩

/-- Fully covering green. -/
def green : color.Color := ⟨0, 65535, 0, 65535⟩

/-- Fully covering blue. -/
def blue : color.Color := ⟨0, 0, 65535, 65535⟩

/-- The rectangle `image.Rect(x0, y0, x1, y1)` for `x0 <= x1`, `y0 <= y1`. -/
def rect (x0 y0 x1 y1 : Int) : image.Rectangle := ⟨⟨x0, y0⟩, ⟨x1, y1⟩⟩

/-- Two frames, the first one disposed to background, and no global colour
table (the colour model holds an empty palette). -/
def gifNoTable : gif.GIF :=
  { Image := [solidFrame (rect 0 0 1 1) red, solidFrame (rect 0 0 1 1) green]
    Disposal := [gif.DisposalBackground, gif.DisposalNone]
    Config := ⟨.Palette []⟩
    BackgroundIndex := 0 }

/-- A 2x1 canvas: frame 0 red over the canvas, frames 1 and 2 green at (0,0),
frame 1 disposed to background, the background colour blue. -/
def gifBackground : gif.GIF :=
  { Image := [solidFrame (rect 0 0 2 1) red, solidFrame (rect 0 0 1 1) green,
      solidFrame (rect 0 0 1 1) green]
    Disposal := [gif.DisposalNone, gif.DisposalBackground, gif.DisposalNone]
    Config := ⟨.Palette [blue]⟩
    BackgroundIndex := 0 }

/-- A 2x1 canvas: frame 0 red over the canvas, frame 1 green at (0,0) with
disposal RestoreToPrevious, frame 2 blue at (1,0). -/
def gifPrevious : gif.GIF :=
  { Image := [solidFrame (rect 0 0 2 1) red, solidFrame (rect 0 0 1 1) green,
      solidFrame (rect 1 0 2 1) blue]
    Disposal := [gif.DisposalNone, gif.DisposalPrevious, gif.DisposalNone]
    Config := ⟨.Palette [blue]⟩
    BackgroundIndex := 0 }

/-- The input with every RestoreToPrevious disposal replaced by DisposalNone. -/
def withoutPrevious (g : gif.GIF) : gif.GIF :=
  { g with
    Disposal := g.Disposal.map fun d => if d = gif.DisposalPrevious then gif.DisposalNone else d }

/-- The input without frames. -/
def gifEmpty : gif.GIF :=
  { Image := [], Disposal := [], Config := ⟨.other⟩, BackgroundIndex := 0 }

/-- Whether a run stopped with an index-out-of-range panic. -/
def abortsOnIndex (r : Except Panic (List image.RGBA)) : Bool :=
  match r with
  | .error (.indexOutOfRange _ _) => true
  | _ => false

/-- Frame 0 red on a 1x1 canvas, frame 1 green over the 2x1 rectangle that
starts at the same corner and is not contained in the canvas. -/
def gifOutside : gif.GIF :=
  { Image := [solidFrame (rect 0 0 1 1) red, solidFrame (rect 0 0 2 1) green]
    Disposal := [gif.DisposalNone, gif.DisposalNone]
    Config := ⟨.other⟩
    BackgroundIndex := 0 }

/-- The input `gifBackground` with another disposal byte for its last frame. -/
def gifBackgroundB : gif.GIF :=
  { gifBackground with Disposal := [gif.DisposalNone, gif.DisposalBackground, 7] }

/-- A 1x1 canvas: frame 0 black and fully covering, frame 1 white with alpha
128 of 255, given with straight alpha. -/
def gifBlend : gif.GIF :=
  { Image := [solidFrame (rect 0 0 1 1) ⟨0, 0, 0, 65535⟩,
      solidFrame (rect 0 0 1 1) (color.NRGBA 255 255 255 128)]
    Disposal := [gif.DisposalNone, gif.DisposalNone]
    Config := ⟨.other⟩
    BackgroundIndex := 0 }

theorem read_frames_mkState (canvas : image.RGBA) (out : List image.RGBA) (pf : Option Ptr) :
    (mkState canvas out pf).frames.map (mkState canvas out pf).heap.read = out := by
  apply List.ext_getElem?
  intro n
  simp only [mkState, Heap.read, List.getElem?_map]
  by_cases hn : n < out.length
  · rw [List.getElem?_range' _ _ hn]
    simp [Heap.read, List.getD_eq_getElem?_getD, Nat.add_comm 1 n, List.getElem?_eq_getElem hn]
  · have h1 : (List.range' 1 out.length)[n]? = none := by
      apply List.getElem?_eq_none; simp; omega
    have h2 : out[n]? = none := List.getElem?_eq_none (by omega)
    rw [h1, h2]; rfl

theorem disposeStep_mkState (g : gif.GIF) (i : Nat) (canvas : image.RGBA)
    (out : List image.RGBA) (pf : Option Ptr) (hpf : pf = none ∨ pf = some 0) :
    disposeStep g i (mkState canvas out pf) =
      match dispose g i canvas with
      | .error e => .error e
      | .ok c => .ok (mkState c out pf) := by
  unfold disposeStep dispose
  by_cases hi : i > 0
  · simp only [hi, if_true]
    cases hd : g.Disposal[i - 1]? with
    | none => rfl
    | some d =>
      simp only
      by_cases hb : d = gif.DisposalBackground
      · simp only [hb, if_true, drawBackground]
        cases bgColor g with
        | error e => rfl
        | ok c => rfl
      · simp only [hb, if_false]
        by_cases hp : d = gif.DisposalPrevious
        · simp only [hp, if_true]
          rcases hpf with h | h <;> subst h <;> rfl
        · simp only [hp, if_false]
  · simp only [hi, if_false]

theorem copyPix_NewRGBA (v : image.RGBA) : copyPix (image.NewRGBA v.Bounds) v = v := rfl

theorem drawStep_mkState (srcImg : image.Paletted) (c : image.RGBA)
    (out : List image.RGBA) (pf : Option Ptr) :
    drawStep srcImg (mkState c out pf) =
      mkState (drawFrame c srcImg) (out ++ [drawFrame c srcImg]) (some 0) := by
  have hset : ∀ (l : List image.RGBA) (x y : image.RGBA),
      (l ++ [x]).set l.length y = l ++ [y] := by
    intro l x y
    rw [List.set_append]; simp
  have hget : ∀ (l : List image.RGBA) (x d : image.RGBA),
      (l ++ [x]).getD l.length d = x := by
    intro l x d
    rw [List.getD_append_right _ _ _ _ (le_refl _)]; simp
  simp only [drawStep, mkState, Heap.write, Heap.alloc, Heap.read, List.set_cons_zero,
    List.length_cons, List.getD_cons_zero, List.cons_append, List.getD_cons_succ,
    List.set_cons_succ, hset, hget, List.length_append, List.length_singleton]
  simp only [List.length_nil, Nat.zero_add]
  rw [List.range'_concat]
  simp only [drawFrame, Nat.one_mul, Nat.add_comm 1 out.length]
  rfl

theorem loopBody_mkState (g : gif.GIF) (i : Nat) (srcImg : image.Paletted)
    (canvas : image.RGBA) (out : List image.RGBA) (pf : Option Ptr)
    (hpf : pf = none ∨ pf = some 0) :
    loopBody g i srcImg (mkState canvas out pf) =
      match dispose g i canvas with
      | .error e => .error e
      | .ok c => .ok (mkState (drawFrame c srcImg) (out ++ [drawFrame c srcImg]) (some 0)) := by
  unfold loopBody
  rw [disposeStep_mkState g i canvas out pf hpf]
  cases dispose g i canvas with
  | error e => rfl
  | ok c => simp only [drawStep_mkState]

theorem lastCanvas_cons (c x : image.RGBA) (l : List image.RGBA) :
    lastCanvas c (x :: l) = lastCanvas x l := rfl

theorem loop_mkState (g : gif.GIF) (frames : List image.Paletted) :
    ∀ (i : Nat) (canvas : image.RGBA) (out : List image.RGBA) (pf : Option Ptr),
      (pf = none ∨ pf = some 0) →
      loop g i frames (mkState canvas out pf) =
        match realize g i frames canvas with
        | .error e => .error e
        | .ok l => .ok (mkState (lastCanvas canvas l) (out ++ l)
            (if l.isEmpty then pf else some 0)) := by
  induction frames with
  | nil => intro i canvas out pf _; simp [loop, realize, lastCanvas]
  | cons srcImg rest ih =>
    intro i canvas out pf hpf
    unfold loop realize
    rw [loopBody_mkState g i srcImg canvas out pf hpf]
    cases dispose g i canvas with
    | error e => rfl
    | ok c =>
      simp only
      rw [ih (i + 1) (drawFrame c srcImg) (out ++ [drawFrame c srcImg]) (some 0) (Or.inr rfl)]
      cases realize g (i + 1) rest (drawFrame c srcImg) with
      | error e => rfl
      | ok l => simp [lastCanvas_cons]

/-- The heap run of `processGifFrames` returns the canvases of the canvas run. -/
theorem processGifFrames_eq_realize (g : gif.GIF) :
    processGifFrames g =
      match g.Image[0]? with
      | none => .error (.indexOutOfRange 0 g.Image.length)
      | some im0 => realize g 0 g.Image (image.NewRGBA im0.Bounds) := by
  unfold processGifFrames
  cases g.Image[0]? with
  | none => rfl
  | some im0 =>
    have hinit : initState im0.Bounds = mkState (image.NewRGBA im0.Bounds) [] none := rfl
    simp only [hinit]
    rw [loop_mkState g g.Image 0 _ [] none (Or.inl rfl)]
    cases realize g 0 g.Image (image.NewRGBA im0.Bounds) with
    | error e => rfl
    | ok l => simp only [read_frames_mkState, List.nil_append]

/-- The loop over a list of frames is the loop over its first part followed by
the loop over the rest. -/
theorem loop_append (g : gif.GIF) (xs ys : List image.Paletted) :
    ∀ (i : Nat) (st : LoopState),
      loop g i (xs ++ ys) st =
        match loop g i xs st with
        | .error e => .error e
        | .ok st1 => loop g (i + xs.length) ys st1 := by
  induction xs with
  | nil => intro i st; simp [loop]
  | cons src rest ih =>
    intro i st
    simp only [List.cons_append, loop]
    cases loopBody g i src st with
    | error e => rfl
    | ok st1 =>
      simp only [List.append_eq, List.length_cons]
      rw [ih (i + 1) st1, show i + (rest.length + 1) = i + 1 + rest.length by omega]

/-- The state `stateAfter g n` is the one the loop of `processGifFrames` is in
after `n` iterations: the loop continues from it with the remaining frames. -/
theorem loop_from_stateAfter (g : gif.GIF) (n : Nat) (im0 : image.Paletted)
    (h0 : g.Image[0]? = some im0) :
    loop g 0 g.Image (initState im0.Bounds) =
      match stateAfter g n with
      | .error e => .error e
      | .ok st => loop g (g.Image.take n).length (g.Image.drop n) st := by
  unfold stateAfter
  simp only [h0]
  have h := loop_append g (g.Image.take n) (g.Image.drop n) 0 (initState im0.Bounds)
  rw [List.take_append_drop, Nat.zero_add] at h
  exact h

/-! ## Lemmas: rectangles and the two draws -/

theorem In_ZR (p : image.Point) : p.In image.ZR = false := by
  simp only [image.Point.In, image.ZR, Bool.and_eq_false_iff, decide_eq_false_iff_not]
  omega

theorem In_Intersect (p : image.Point) (r s : image.Rectangle) :
    p.In (r.Intersect s) = (p.In r && p.In s) := by
  unfold image.Rectangle.Intersect
  simp only
  generalize hminX : (if r.Min.X < s.Min.X then s.Min.X else r.Min.X) = minX
  generalize hminY : (if r.Min.Y < s.Min.Y then s.Min.Y else r.Min.Y) = minY
  generalize hmaxX : (if r.Max.X > s.Max.X then s.Max.X else r.Max.X) = maxX
  generalize hmaxY : (if r.Max.Y > s.Max.Y then s.Max.Y else r.Max.Y) = maxY
  have h1 : minX = max r.Min.X s.Min.X := by rw [← hminX]; split_ifs <;> omega
  have h2 : minY = max r.Min.Y s.Min.Y := by rw [← hminY]; split_ifs <;> omega
  have h3 : maxX = min r.Max.X s.Max.X := by rw [← hmaxX]; split_ifs <;> omega
  have h4 : maxY = min r.Max.Y s.Max.Y := by rw [← hmaxY]; split_ifs <;> omega
  rw [Bool.eq_iff_iff]
  split_ifs with he
  · simp only [image.Rectangle.Empty, Bool.or_eq_true, decide_eq_true_eq] at he
    simp only [image.Point.In, image.ZR, Bool.and_eq_true, decide_eq_true_eq]
    constructor <;> intro h <;> omega
  · simp only [image.Rectangle.Empty, Bool.or_eq_true, decide_eq_true_eq] at he
    simp only [image.Point.In, Bool.and_eq_true, decide_eq_true_eq]
    constructor <;> intro h <;> omega

theorem In_of_Empty (p : image.Point) (r : image.Rectangle) (h : r.Empty = true) :
    p.In r = false := by
  simp only [image.Rectangle.Empty, Bool.or_eq_true, decide_eq_true_eq] at h
  simp only [image.Point.In, Bool.and_eq_false_iff, decide_eq_false_iff_not]
  omega

theorem Add_Sub_self (r : image.Rectangle) (p : image.Point) : r.Add (p.Sub p) = r := by
  simp [image.Rectangle.Add, image.Point.Sub]

theorem drawFrame_Rect (c : image.RGBA) (src : image.Paletted) :
    (drawFrame c src).Rect = c.Rect := by
  unfold drawFrame draw.DrawOver
  simp only
  split <;> rfl

/-- The draw statement changes exactly the pixels common to the frame and the
canvas, each blended with the frame pixel at the same point. -/
theorem drawFrame_Pix (c : image.RGBA) (src : image.Paletted) (p : image.Point) :
    (drawFrame c src).Pix p =
      if (p.In src.Bounds && p.In c.Bounds) = true then
        draw.overPixel (c.Pix p) (src.RGBA64At p)
      else c.Pix p := by
  unfold drawFrame draw.DrawOver
  simp only [draw.clip, Add_Sub_self]
  have hin : p.In ((src.Bounds.Intersect c.Bounds).Intersect src.Bounds) =
      (p.In src.Bounds && p.In c.Bounds) := by
    rw [In_Intersect, In_Intersect]
    cases p.In src.Bounds <;> cases p.In c.Bounds <;> rfl
  split
  · rename_i he
    have := In_of_Empty p _ he
    rw [hin] at this
    simp [this]
  · simp only [draw.drawRGBA, hin]
    split
    · congr 2
      simp [image.Point.Sub, image.Point.Add]
    · rfl

theorem DrawSrc_Rect (c : image.RGBA) (r : image.Rectangle) (u : image.Uniform)
    (sp : image.Point) : (draw.DrawSrc c r u sp).Rect = c.Rect := by
  unfold draw.DrawSrc
  simp only
  split <;> rfl

/-- The background fill of `drawBackground` sets every pixel of the canvas. -/
theorem DrawSrc_Bounds_Pix (c : image.RGBA) (u : image.Uniform) (sp p : image.Point) :
    (draw.DrawSrc c c.Bounds u sp).Pix p =
      if p.In c.Bounds = true then
        ⟨u8 (u.C.r / 256), u8 (u.C.g / 256), u8 (u.C.b / 256), u8 (u.C.a / 256)⟩
      else c.Pix p := by
  unfold draw.DrawSrc
  simp only
  have hin : p.In (c.Bounds.Intersect c.Bounds) = p.In c.Bounds := by
    rw [In_Intersect]; simp
  split
  · rename_i he
    have := In_of_Empty p _ he
    rw [hin] at this
    simp [this]
  · simp only [draw.drawFillSrc, hin]

/-! ## Lemmas: the canvas run -/

theorem dispose_Rect (g : gif.GIF) (i : Nat) (c c1 : image.RGBA)
    (h : dispose g i c = .ok c1) : c1.Rect = c.Rect := by
  unfold dispose at h
  split_ifs at h with hi
  · split at h
    · cases h
    · split_ifs at h with hb
      · split at h
        · cases h
        · cases h; exact DrawSrc_Rect _ _ _ _
      · cases h; rfl
  · cases h; rfl

theorem dispose_ok_iff (g : gif.GIF) (i : Nat) (c : image.RGBA) :
    (∃ c1, dispose g i c = .ok c1) ↔ DisposeOk g i := by
  unfold dispose DisposeOk
  by_cases hi : i > 0
  · simp only [hi, if_true]
    cases hd : g.Disposal[i - 1]? with
    | none => simp; omega
    | some d =>
      by_cases hb : d = gif.DisposalBackground
      · cases hc : bgColor g with
        | error e => simp [hb]; omega
        | ok col => simp [hb]
      · simp [hb]
  · have : i = 0 := by omega
    simp [this]

theorem realize_length (g : gif.GIF) (frames : List image.Paletted) :
    ∀ (i : Nat) (c : image.RGBA) (l : List image.RGBA),
      realize g i frames c = .ok l → l.length = frames.length := by
  induction frames with
  | nil => intro i c l h; simp only [realize] at h; cases h; rfl
  | cons src rest ih =>
    intro i c l h
    simp only [realize] at h
    split at h
    · cases h
    · split at h
      · cases h
      · rename_i l1 hl
        cases h
        simp [ih _ _ _ hl]

theorem realize_ok (g : gif.GIF) (frames : List image.Paletted) :
    ∀ (i : Nat) (c : image.RGBA),
      (∀ k, i ≤ k → k < i + frames.length → DisposeOk g k) →
      ∃ l, realize g i frames c = .ok l := by
  induction frames with
  | nil => intro i c _; exact ⟨[], rfl⟩
  | cons src rest ih =>
    intro i c h
    obtain ⟨c1, hc1⟩ := (dispose_ok_iff g i c).2 (h i (le_refl _) (by simp))
    obtain ⟨l, hl⟩ := ih (i + 1) (drawFrame c1 src) (by
      intro k hk1 hk2
      exact h k (by omega) (by simp only [List.length_cons]; omega))
    exact ⟨drawFrame c1 src :: l, by simp only [realize, hc1, hl]⟩

theorem lastCanvas_take_succ (c : image.RGBA) (l : List image.RGBA) :
    ∀ (k : Nat) (x : image.RGBA), l[k]? = some x → lastCanvas c (l.take (k + 1)) = x := by
  induction l generalizing c with
  | nil => intro k x h; simp at h
  | cons a l ih =>
    intro k x h
    cases k with
    | zero => simp at h; subst h; rfl
    | succ k =>
      simp only [List.getElem?_cons_succ] at h
      simp only [List.take_succ_cons, lastCanvas_cons]
      exact ih a k x h

/-- Every canvas of the canvas run is the frame drawn on the result of the
disposal switch applied to the canvas before it. -/
theorem realize_getElem (g : gif.GIF) (frames : List image.Paletted) :
    ∀ (i : Nat) (c : image.RGBA) (l : List image.RGBA),
      realize g i frames c = .ok l →
      ∀ (k : Nat) (fr : image.Paletted), frames[k]? = some fr →
        ∃ c1, dispose g (i + k) (lastCanvas c (l.take k)) = .ok c1 ∧
          l[k]? = some (drawFrame c1 fr) := by
  induction frames with
  | nil => intro i c l _ k fr hk; simp at hk
  | cons src rest ih =>
    intro i c l h k fr hk
    simp only [realize] at h
    split at h
    · cases h
    · rename_i c0 hc0
      split at h
      · cases h
      · rename_i l1 hl
        cases h
        cases k with
        | zero =>
          simp only [List.getElem?_cons_zero, Option.some.injEq] at hk
          subst hk
          exact ⟨c0, by simpa [lastCanvas] using hc0, by simp⟩
        | succ k =>
          simp only [List.getElem?_cons_succ] at hk
          obtain ⟨c1, h1, h2⟩ := ih (i + 1) _ l1 hl k fr hk
          refine ⟨c1, ?_, by simpa using h2⟩
          simp only [List.take_succ_cons, lastCanvas_cons]
          rw [show i + (k + 1) = i + 1 + k by omega]
          exact h1

/-- Two inputs whose disposal switches agree at the iterations run give the
same canvas run. -/
theorem realize_congr (g1 g2 : gif.GIF) (frames : List image.Paletted) :
    ∀ (i : Nat) (c : image.RGBA),
      (∀ k c1, i ≤ k → k < i + frames.length → dispose g1 k c1 = dispose g2 k c1) →
      realize g1 i frames c = realize g2 i frames c := by
  induction frames with
  | nil => intro i c _; rfl
  | cons src rest ih =>
    intro i c h
    simp only [realize]
    rw [h i c (le_refl _) (by simp)]
    cases dispose g2 i c with
    | error e => rfl
    | ok c0 =>
      simp only
      rw [ih (i + 1) (drawFrame c0 src) (by
        intro k c1 hk1 hk2
        exact h k c1 (by omega) (by simp only [List.length_cons]; omega))]

theorem realize_take (g : gif.GIF) (frames : List image.Paletted) :
    ∀ (i : Nat) (c : image.RGBA) (out : List image.RGBA),
      realize g i frames c = .ok out →
      ∀ n, realize g i (frames.take n) c = .ok (out.take n) := by
  induction frames with
  | nil => intro i c out h n; simp only [realize] at h; cases h; simp [realize]
  | cons src rest ih =>
    intro i c out h n
    simp only [realize] at h
    split at h
    · cases h
    · rename_i c0 hc0
      split at h
      · cases h
      · rename_i l1 hl
        cases h
        cases n with
        | zero => simp [realize]
        | succ n => simp only [List.take_succ_cons, realize, hc0, ih _ _ _ hl n]

theorem dispose_background (g : gif.GIF) (i : Nat) (c c1 : image.RGBA) (hi : 0 < i)
    (hd : g.Disposal[i - 1]? = some gif.DisposalBackground)
    (h : dispose g i c = .ok c1) :
    ∃ col, bgColor g = .ok col ∧ c1 = draw.DrawSrc c c.Bounds ⟨col⟩ ⟨0, 0⟩ := by
  unfold dispose at h
  simp only [hi, gt_iff_lt, if_true, hd] at h
  cases hc : bgColor g with
  | error e => rw [hc] at h; cases h
  | ok col => rw [hc] at h; cases h; exact ⟨col, rfl, rfl⟩

theorem dispose_noop (g : gif.GIF) (i d : Nat) (c : image.RGBA)
    (hd : g.Disposal[i - 1]? = some d) (hb : d ≠ gif.DisposalBackground) :
    dispose g i c = .ok c := by
  unfold dispose
  split_ifs with hi
  · simp only [hd, hb, if_false]
  · rfl

theorem canvasAfter_eq (g : gif.GIF) (im0 : image.Paletted) (out : List image.RGBA)
    (h0 : g.Image[0]? = some im0)
    (h : realize g 0 g.Image (image.NewRGBA im0.Bounds) = .ok out) (i : Nat) :
    canvasAfter g i = .ok (lastCanvas (image.NewRGBA im0.Bounds) (out.take (i + 1))) := by
  unfold canvasAfter stateAfter
  simp only [h0]
  have hinit : initState im0.Bounds = mkState (image.NewRGBA im0.Bounds) [] none := rfl
  rw [hinit, loop_mkState g _ 0 _ [] none (Or.inl rfl), realize_take g _ _ _ _ h (i + 1)]
  rfl

theorem realize_firstFrames (g : gif.GIF) (n : Nat) (frames : List image.Paletted)
    (i : Nat) (c : image.RGBA) :
    realize (firstFrames g n) i frames c = realize g i frames c :=
  realize_congr (firstFrames g n) g frames i c (fun _ _ _ _ => rfl)

/-- The run over the first `n > 0` frames, on canvas values. -/
theorem processGifFrames_firstFrames (g : gif.GIF) (n : Nat) (hn : 0 < n) :
    processGifFrames (firstFrames g n) =
      match g.Image[0]? with
      | none => .error (.indexOutOfRange 0 0)
      | some im0 => realize g 0 (g.Image.take n) (image.NewRGBA im0.Bounds) := by
  rw [processGifFrames_eq_realize]
  have h0 : (firstFrames g n).Image[0]? = g.Image[0]? := by
    simp only [firstFrames, List.getElem?_take, hn, if_true]
  rw [h0]
  cases hg : g.Image[0]? with
  | none =>
    have : g.Image = [] := by
      cases hI : g.Image with
      | nil => rfl
      | cons a l => rw [hI] at hg; simp at hg
    simp [firstFrames, this]
  | some im0 => simp only [realize_firstFrames]; rfl

theorem dispose_agree (g1 g2 : gif.GIF) (i k : Nat) (c : image.RGBA)
    (hC : g1.Config = g2.Config) (hB : g1.BackgroundIndex = g2.BackgroundIndex)
    (hD : ∀ j, j < i → g1.Disposal[j]? = g2.Disposal[j]?) (hk : k ≤ i) :
    dispose g1 k c = dispose g2 k c := by
  have hbg : bgColor g1 = bgColor g2 := by unfold bgColor; rw [hC, hB]
  unfold dispose
  by_cases hk0 : k > 0
  · simp only [hk0, if_true, hbg]
    have hj := hD (k - 1) (by omega)
    cases h1 : g1.Disposal[k - 1]? with
    | some d => rw [← hj, h1]
    | none =>
      rw [← hj, h1]
      simp only
      have hl1 : g1.Disposal.length ≤ k - 1 := by
        by_contra hcon
        rw [List.getElem?_eq_getElem (by omega)] at h1
        cases h1
      have hl2 : g2.Disposal.length ≤ k - 1 := by
        by_contra hcon
        rw [h1] at hj
        rw [List.getElem?_eq_getElem (by omega)] at hj
        cases hj
      have hlen : g1.Disposal.length = g2.Disposal.length := by
        rcases Nat.lt_trichotomy g1.Disposal.length g2.Disposal.length with h | h | h
        · have := hD g1.Disposal.length (by omega)
          rw [List.getElem?_eq_none (le_refl _), List.getElem?_eq_getElem h] at this
          cases this
        · exact h
        · have := hD g2.Disposal.length (by omega)
          rw [List.getElem?_eq_none (le_refl _), List.getElem?_eq_getElem h] at this
          cases this
      rw [hlen]
  · simp only [hk0, if_false]

theorem dispose_withoutPrevious (g : gif.GIF) (k : Nat) (c : image.RGBA) :
    dispose (withoutPrevious g) k c = dispose g k c := by
  have hbg : bgColor (withoutPrevious g) = bgColor g := rfl
  unfold dispose
  by_cases hk0 : k > 0
  · simp only [hk0, if_true, hbg, withoutPrevious, List.getElem?_map, List.length_map]
    cases g.Disposal[k - 1]? with
    | none => rfl
    | some d =>
      simp only [Option.map_some']
      by_cases hb : d = gif.DisposalBackground
      · subst hb
        simp only [gif.DisposalBackground, gif.DisposalPrevious, Nat.reduceEqDiff, if_false,
          if_true]
        rfl
      · by_cases hp : d = gif.DisposalPrevious
        · subst hp
          simp [gif.DisposalBackground, gif.DisposalPrevious, gif.DisposalNone]
        · simp [hb, hp]
  · simp only [hk0, if_false]

/-- When the disposal byte read before frame `i` is not RestoreToBackground,
realized frame `i` is frame `i` drawn over realized frame `i - 1`. -/
theorem realized_over_previous (g : gif.GIF) (i d : Nat) (fr : image.Paletted)
    (out : List image.RGBA) (hi : 0 < i) (hfr : g.Image[i]? = some fr)
    (hd : g.Disposal[i - 1]? = some d) (hb : d ≠ gif.DisposalBackground)
    (hout : processGifFrames g = .ok out) :
    ∃ prev cur, out[i - 1]? = some prev ∧ out[i]? = some cur ∧
      cur = draw.DrawOver prev fr.Bounds fr fr.Bounds.Min ∧
      ∀ p : image.Point, p.In fr.Bounds = false → cur.Pix p = prev.Pix p := by
  have hilt : i < g.Image.length := by
    by_contra hcon
    rw [List.getElem?_eq_none (by omega)] at hfr
    cases hfr
  rw [processGifFrames_eq_realize] at hout
  cases him0 : g.Image[0]? with
  | none => rw [him0] at hout; cases hout
  | some im0 =>
    rw [him0] at hout
    have hlen := realize_length g _ _ _ _ hout
    obtain ⟨c1, hc1, hcur⟩ := realize_getElem g _ _ _ _ hout i fr hfr
    rw [Nat.zero_add, dispose_noop g i d _ hd hb] at hc1
    have hprev : out[i - 1]? = some out[i - 1] := List.getElem?_eq_getElem (by omega)
    have hlast : lastCanvas (image.NewRGBA im0.Bounds) (List.take i out) = out[i - 1] := by
      have := lastCanvas_take_succ (image.NewRGBA im0.Bounds) out (i - 1) _ hprev
      rwa [show i - 1 + 1 = i by omega] at this
    cases hc1
    rw [hlast] at hcur
    refine ⟨out[i - 1], _, hprev, hcur, rfl, ?_⟩
    intro p hpo
    have := drawFrame_Pix out[i - 1] fr p
    rw [hpo] at this
    simpa [drawFrame] using this

theorem realize_Rect (g : gif.GIF) (frames : List image.Paletted) :
    ∀ (i : Nat) (c : image.RGBA) (l : List image.RGBA),
      realize g i frames c = .ok l → ∀ x ∈ l, x.Rect = c.Rect := by
  induction frames with
  | nil => intro i c l h x hx; simp only [realize] at h; cases h; simp at hx
  | cons src rest ih =>
    intro i c l h x hx
    simp only [realize] at h
    split at h
    · cases h
    · rename_i c0 hc0
      split at h
      · cases h
      · rename_i l1 hl
        cases h
        have h0 : (drawFrame c0 src).Rect = c.Rect := by
          rw [drawFrame_Rect, dispose_Rect g i c c0 hc0]
        rcases List.mem_cons.1 hx with hx | hx
        · rw [hx]; exact h0
        · rw [ih _ _ _ hl x hx]; exact h0

/-- The conditions under which no iteration of the loop panics. -/
theorem disposeOk_of_lengths (g : gif.GIF) (hd : g.Image.length ≤ g.Disposal.length)
    (hbg : gif.DisposalBackground ∈ g.Disposal.take (g.Image.length - 1) →
      ∃ col, bgColor g = .ok col) :
    ∀ k, 0 ≤ k → k < 0 + g.Image.length → DisposeOk g k := by
  intro k _ hk
  rcases Nat.eq_zero_or_pos k with hk0 | hk0
  · exact Or.inl hk0
  · right
    have hlt : k - 1 < g.Disposal.length := by omega
    refine ⟨g.Disposal[k - 1], List.getElem?_eq_getElem hlt, fun hb => hbg ?_⟩
    rw [← hb]
    apply List.mem_iff_getElem.2
    have hlt2 : k - 1 < (g.Disposal.take (g.Image.length - 1)).length := by
      rw [List.length_take]; omega
    exact ⟨k - 1, hlt2, by simp [List.getElem_take]⟩

/-- One channel of the `Over` loop, for a destination byte `d` and a source
channel `s` not above the source alpha `sa`: no conversion wraps, and the
result is the blend `d16 * (m - sa) / m + s` in 16 bits, cut to its high byte. -/
theorem over_channel (d s sa : Nat) (hd : d < 256) (hs : s ≤ sa) (hsa : sa ≤ 65535) :
    u8 (u32 (u32 (d * u32 ((draw.m - sa) * 257)) / draw.m + s) / 256) =
      (257 * d * (65535 - sa) + 65535 * s) / (256 * 65535) := by
  have ht : d * (65535 - sa) ≤ 255 * (65535 - sa) := Nat.mul_le_mul_right _ (by omega)
  have e1 : d * ((65535 - sa) * 257) = 257 * (d * (65535 - sa)) := by ring
  have e2 : 257 * d * (65535 - sa) = 257 * (d * (65535 - sa)) := by ring
  simp only [u8, u32, draw.m]
  rw [Nat.mod_eq_of_lt (show (65535 - sa) * 257 < 4294967296 by omega), e1, e2]
  generalize d * (65535 - sa) = t at ht
  have h1 : 257 * t < 4294967296 := by omega
  have hk : 257 * t / 65535 ≤ 65535 - sa := by
    apply Nat.div_le_of_le_mul
    omega
  rw [Nat.mod_eq_of_lt h1,
    Nat.mod_eq_of_lt (show 257 * t / 65535 + s < 4294967296 by omega),
    Nat.mod_eq_of_lt (show (257 * t / 65535 + s) / 256 < 256 by omega),
    show 256 * 65535 = 65535 * 256 by norm_num, ← Nat.div_div_eq_div_mul,
    show 65535 * s = s * 65535 by ring, Nat.add_mul_div_right _ _ (by norm_num)]

theorem byte_roundtrip (x : Nat) (h : x < 256) : u8 (u8 x * 257 / 256) = x := by
  simp only [u8]
  rw [Nat.mod_eq_of_lt h, show x * 257 = x + x * 256 by ring,
    Nat.add_mul_div_right _ _ (by norm_num), Nat.div_eq_of_lt h, Nat.zero_add,
    Nat.mod_eq_of_lt h]

theorem to8_toColor (x : color.RGBA) (h : x.R < 256 ∧ x.G < 256 ∧ x.B < 256 ∧ x.A < 256) :
    x.toColor.to8 = x := by
  obtain ⟨h1, h2, h3, h4⟩ := h
  cases x
  simp only [color.RGBA.toColor, color.Color.to8]
  simp only at h1 h2 h3 h4
  rw [byte_roundtrip _ h1, byte_roundtrip _ h2, byte_roundtrip _ h3, byte_roundtrip _ h4]

theorem blend_solid (d s : Nat) (hs : s ≤ 65535) :
    (257 * d * (65535 - 65535) + 65535 * s) / (256 * 65535) = u8 (s / 256) := by
  have h1 : s / 256 < 256 := by omega
  rw [Nat.sub_self, Nat.mul_zero, Nat.zero_add, Nat.mul_comm 256 65535,
    Nat.mul_div_mul_left _ _ (by norm_num : 0 < 65535), u8, Nat.mod_eq_of_lt h1]

theorem blend_clear (d : Nat) (hd : d < 256) :
    (257 * d * (65535 - 0) + 65535 * 0) / (256 * 65535) = d := by
  rw [Nat.sub_zero, Nat.mul_zero, Nat.add_zero, Nat.mul_comm (257 * d) 65535,
    Nat.mul_comm 256 65535, Nat.mul_div_mul_left _ _ (by norm_num : 0 < 65535),
    show 257 * d = d + d * 256 by ring, Nat.add_mul_div_right _ _ (by norm_num),
    Nat.div_eq_of_lt hd, Nat.zero_add]

/-- The pixel the draw statement leaves at a point common to frame and canvas,
for canvas bytes and a source colour within their ranges. -/
theorem drawFrame_blend (c : image.RGBA) (src : image.Paletted) (p : image.Point)
    (hp : p.In src.Bounds = true) (hpc : p.In c.Bounds = true)
    (hd : (c.Pix p).R < 256 ∧ (c.Pix p).G < 256 ∧ (c.Pix p).B < 256 ∧ (c.Pix p).A < 256)
    (hs : (src.At p).r ≤ (src.At p).a ∧ (src.At p).g ≤ (src.At p).a ∧
      (src.At p).b ≤ (src.At p).a ∧ (src.At p).a ≤ 65535) :
    (drawFrame c src).Pix p =
      ⟨(257 * (c.Pix p).R * (65535 - (src.At p).a) + 65535 * (src.At p).r) / (256 * 65535),
       (257 * (c.Pix p).G * (65535 - (src.At p).a) + 65535 * (src.At p).g) / (256 * 65535),
       (257 * (c.Pix p).B * (65535 - (src.At p).a) + 65535 * (src.At p).b) / (256 * 65535),
       (257 * (c.Pix p).A * (65535 - (src.At p).a) + 65535 * (src.At p).a) / (256 * 65535)⟩ := by
  obtain ⟨d1, d2, d3, d4⟩ := hd
  obtain ⟨s1, s2, s3, s4⟩ := hs
  rw [drawFrame_Pix, hp, hpc]
  simp only [Bool.and_self, if_true, draw.overPixel, image.Paletted.RGBA64At]
  have u1 : u16 (src.At p).r = (src.At p).r := Nat.mod_eq_of_lt (by omega)
  have u2 : u16 (src.At p).g = (src.At p).g := Nat.mod_eq_of_lt (by omega)
  have u3 : u16 (src.At p).b = (src.At p).b := Nat.mod_eq_of_lt (by omega)
  have u4 : u16 (src.At p).a = (src.At p).a := Nat.mod_eq_of_lt (by omega)
  rw [u1, u2, u3, u4, over_channel _ _ _ d1 s1 s4, over_channel _ _ _ d2 s2 s4,
    over_channel _ _ _ d3 s3 s4, over_channel _ _ _ d4 (le_refl _) s4]

/-- In every state the loop reaches, `prevFrame` is nil or the pointer `bg`. -/
theorem prevFrame_aliases_bg (g : gif.GIF) (n : Nat) (st : LoopState)
    (h : stateAfter g n = .ok st) : st.prevFrame = none ∨ st.prevFrame = some st.bg := by
  unfold stateAfter at h
  cases him0 : g.Image[0]? with
  | none => rw [him0] at h; cases h
  | some im0 =>
    rw [him0] at h
    have hinit : initState im0.Bounds = mkState (image.NewRGBA im0.Bounds) [] none := rfl
    simp only [hinit] at h
    rw [loop_mkState g _ 0 _ [] none (Or.inl rfl)] at h
    cases hr : realize g 0 (List.take n g.Image) (image.NewRGBA im0.Bounds) with
    | error e => rw [hr] at h; cases h
    | ok l =>
      rw [hr] at h
      cases h
      simp only [mkState]
      cases l.isEmpty
      · exact Or.inr rfl
      · exact Or.inl rfl

/-! ## The claims -/

/-- C1 (amended): for every GIF value with at least one frame, a Disposal list
at least as long as the frame list and, when a frame other than the last has
disposal RestoreToBackground, a background index that resolves in the global
colour table, `processGifFrames` returns exactly `len(g.Image)` realized
frames, and the i-th of them is the canvas as it is right after `g.Image[i]`
was drawn. -/
theorem C1_frames_in_order (g : gif.GIF) (h0 : 0 < g.Image.length)
    (hd : g.Image.length ≤ g.Disposal.length)
    (hbg : gif.DisposalBackground ∈ g.Disposal.take (g.Image.length - 1) →
      ∃ col, bgColor g = .ok col) :
    ∃ out, processGifFrames g = .ok out ∧ out.length = g.Image.length ∧
      ∀ i, i < g.Image.length → ∃ cv, canvasAfter g i = .ok cv ∧ out[i]? = some cv := by
  obtain ⟨im0, him0⟩ : ∃ im0, g.Image[0]? = some im0 :=
    ⟨g.Image[0], List.getElem?_eq_getElem h0⟩
  have hok := disposeOk_of_lengths g hd hbg
  obtain ⟨out, hout⟩ := realize_ok g g.Image 0 (image.NewRGBA im0.Bounds) hok
  have hlen := realize_length g _ _ _ _ hout
  refine ⟨out, ?_, hlen, ?_⟩
  · rw [processGifFrames_eq_realize, him0]; exact hout
  · intro i hi
    have hi2 : i < out.length := by omega
    refine ⟨out[i], ?_, List.getElem?_eq_getElem hi2⟩
    rw [canvasAfter_eq g im0 out him0 hout i,
      lastCanvas_take_succ _ out i out[i] (List.getElem?_eq_getElem hi2)]

/-- C1, at a concrete input: three frames, one of them disposed to background. -/
theorem C1_frames_in_order_witness :
    (0 < gifBackground.Image.length ∧
      gifBackground.Image.length ≤ gifBackground.Disposal.length) ∧
    ∃ out, processGifFrames gifBackground = .ok out ∧
      out.length = gifBackground.Image.length ∧
      ∀ i, i < gifBackground.Image.length →
        ∃ cv, canvasAfter gifBackground i = .ok cv ∧ out[i]? = some cv :=
  ⟨⟨by decide, by decide⟩,
    C1_frames_in_order gifBackground (by decide) (by decide) (fun _ => ⟨blue, rfl⟩)⟩

/-- C1 as stated fails: a GIF with two frames and two disposal bytes, the first
RestoreToBackground, and no global colour table makes `processGifFrames` stop
with an index-out-of-range panic instead of returning two frames. -/
theorem C1_counterexample :
    (0 < gifNoTable.Image.length ∧ gifNoTable.Image.length ≤ gifNoTable.Disposal.length) ∧
    processGifFrames gifNoTable = .error (Panic.indexOutOfRange 0 0) :=
  ⟨⟨by decide, by decide⟩, rfl⟩

/-- C2 (amended): for every frame sequence and every index i > 0 with
Disposal[i-1] = RestoreToBackground, the pre-draw transition fills the whole
canvas, not only the rectangle of frame i-1, with the background colour: in
realized frame i every canvas pixel outside the bounds of frame i holds the
bytes of the background colour, whatever it held in realized frame i-1. -/
theorem C2_background_fills_canvas (g : gif.GIF) (out : List image.RGBA) (i : Nat)
    (fr : image.Paletted) (hrun : processGifFrames g = .ok out) (hi : 0 < i)
    (hfr : g.Image[i]? = some fr)
    (hd : g.Disposal[i - 1]? = some gif.DisposalBackground) :
    ∃ col cur, bgColor g = .ok col ∧ out[i]? = some cur ∧
      ∀ p : image.Point, p.In cur.Bounds = true → p.In fr.Bounds = false →
        cur.Pix p = col.to8 := by
  rw [processGifFrames_eq_realize] at hrun
  cases him0 : g.Image[0]? with
  | none => rw [him0] at hrun; cases hrun
  | some im0 =>
    rw [him0] at hrun
    obtain ⟨c1, hc1, hcur⟩ := realize_getElem g _ _ _ _ hrun i fr hfr
    rw [Nat.zero_add] at hc1
    obtain ⟨col, hcol, hc1eq⟩ := dispose_background g i _ c1 hi hd hc1
    refine ⟨col, drawFrame c1 fr, hcol, hcur, ?_⟩
    intro p hp hpf
    rw [drawFrame_Pix, hpf]
    simp only [Bool.false_and, Bool.false_eq_true, if_false]
    have hp2 : p.In (lastCanvas (image.NewRGBA im0.Bounds) (List.take i out)).Bounds = true := by
      have : (drawFrame c1 fr).Rect = (lastCanvas (image.NewRGBA im0.Bounds)
          (List.take i out)).Rect := by
        rw [drawFrame_Rect, hc1eq, DrawSrc_Rect]
      simp only [image.RGBA.Bounds] at hp ⊢
      rw [← this]; exact hp
    rw [hc1eq, DrawSrc_Bounds_Pix, hp2]
    rfl

/-- C2, at a concrete input: frame 2 of `gifBackground`, whose predecessor is
disposed to background. -/
theorem C2_background_fills_canvas_witness :
    ∃ out col cur, processGifFrames gifBackground = .ok out ∧
      bgColor gifBackground = .ok col ∧ out[2]? = some cur ∧
      ∀ p : image.Point, p.In cur.Bounds = true →
        p.In (solidFrame (rect 0 0 1 1) green).Bounds = false → cur.Pix p = col.to8 :=
  have hrun : ∃ out, processGifFrames gifBackground = .ok out := ⟨_, rfl⟩
  hrun.elim fun out hout =>
    (C2_background_fills_canvas gifBackground out 2 (solidFrame (rect 0 0 1 1) green)
      hout (by decide) rfl rfl).elim fun col h =>
        h.elim fun cur hc => ⟨out, col, cur, hout, hc⟩

/-- C2 as stated fails: in `gifBackground` frame 1 has disposal
RestoreToBackground, the point (1,0) of the canvas lies outside the bounds of
frame 1 and of frame 2, and it is red in realized frame 1 and blue, the
background colour, in realized frame 2. -/
theorem C2_counterexample :
    gifBackground.Disposal[2 - 1]? = some gif.DisposalBackground ∧
    (⟨1, 0⟩ : image.Point).In (solidFrame (rect 0 0 2 1) red).Bounds = true ∧
    (⟨1, 0⟩ : image.Point).In (solidFrame (rect 0 0 1 1) green).Bounds = false ∧
    pixelAt (processGifFrames gifBackground) 1 ⟨1, 0⟩ = some ⟨255, 0, 0, 255⟩ ∧
    pixelAt (processGifFrames gifBackground) 2 ⟨1, 0⟩ = some ⟨0, 0, 255, 255⟩ :=
  ⟨rfl, rfl, rfl, rfl, rfl⟩

/-- C3, the code at the failing input `gifPrevious`: frame 1 (green at (0,0))
has disposal RestoreToPrevious, and the canvas before it was drawn is red at
both pixels, so that frame 2 (blue at (1,0)) composited over it gives red, blue;
the realized frame 2 of `processGifFrames` is green, blue: frame 2 was drawn
over realized frame 1. -/
theorem C3_restore_previous_at_failing_input :
    pixelsOf (processGifFrames gifPrevious) =
      .ok [[⟨255, 0, 0, 255⟩, ⟨255, 0, 0, 255⟩], [⟨0, 255, 0, 255⟩, ⟨255, 0, 0, 255⟩],
        [⟨0, 255, 0, 255⟩, ⟨0, 0, 255, 255⟩]] ∧
    (match canvasAfter gifPrevious 0 with
      | .error e => .error e
      | .ok c => .ok (drawFrame c (solidFrame (rect 1 0 2 1) blue)).pixels) =
      (.ok [⟨255, 0, 0, 255⟩, ⟨0, 0, 255, 255⟩] : Except Panic (List color.RGBA)) :=
  ⟨rfl, rfl⟩

/-- C5: a frame's disposal method never affects the frame that declares it. For
two inputs with the same frames, colour model and background index whose
Disposal lists agree at every index j < i, the run over the first i+1 frames
has the same outcome, realized frame i is the same in the results of the two
full runs, and when frame i is the last frame the two full runs have the same
outcome (so that the last frame's disposal changes no output, and with i = 0
realized frame 0 depends on no disposal value). -/
theorem C5_disposal_applies_to_next (g1 g2 : gif.GIF) (i : Nat)
    (hI : g1.Image = g2.Image) (hC : g1.Config = g2.Config)
    (hB : g1.BackgroundIndex = g2.BackgroundIndex)
    (hD : ∀ j, j < i → g1.Disposal[j]? = g2.Disposal[j]?) :
    processGifFrames (firstFrames g1 (i + 1)) = processGifFrames (firstFrames g2 (i + 1)) ∧
    (∀ out1 out2, processGifFrames g1 = .ok out1 → processGifFrames g2 = .ok out2 →
      out1[i]? = out2[i]?) ∧
    (g1.Image.length ≤ i + 1 → processGifFrames g1 = processGifFrames g2) := by
  have hreal : ∀ (frames : List image.Paletted) (c : image.RGBA), frames.length ≤ i + 1 →
      realize g1 0 frames c = realize g2 0 frames c := by
    intro frames c hlen
    apply realize_congr
    intro k c1 _ hk
    exact dispose_agree g1 g2 i k c1 hC hB hD (by omega)
  have hfirst : processGifFrames (firstFrames g1 (i + 1)) =
      processGifFrames (firstFrames g2 (i + 1)) := by
    rw [processGifFrames_firstFrames g1 (i + 1) (by omega),
      processGifFrames_firstFrames g2 (i + 1) (by omega), hI]
    cases g2.Image[0]? with
    | none => rfl
    | some im0 =>
      simp only
      exact hreal _ _ (by rw [List.length_take]; omega)
  refine ⟨hfirst, ?_, ?_⟩
  · intro out1 out2 h1 h2
    rw [processGifFrames_firstFrames g1 (i + 1) (by omega),
      processGifFrames_firstFrames g2 (i + 1) (by omega)] at hfirst
    rw [processGifFrames_eq_realize] at h1 h2
    cases h01 : g1.Image[0]? with
    | none => rw [h01] at h1; cases h1
    | some im0 =>
      have h02 : g2.Image[0]? = some im0 := by rw [← hI]; exact h01
      rw [h01] at h1 hfirst
      rw [h02] at h2 hfirst
      simp only at h1 h2 hfirst
      rw [realize_take g1 _ _ _ _ h1 (i + 1), realize_take g2 _ _ _ _ h2 (i + 1)] at hfirst
      have ht : out1.take (i + 1) = out2.take (i + 1) := by
        injection hfirst
      have := congrArg (fun l => l[i]?) ht
      simpa [List.getElem?_take] using this
  · intro hlen
    rw [processGifFrames_eq_realize, processGifFrames_eq_realize, hI]
    cases g2.Image[0]? with
    | none => rfl
    | some im0 =>
      simp only
      exact hreal _ _ (by rw [← hI]; exact hlen)

/-- C5, at a concrete input: `gifBackground` and `gifBackgroundB` have the same
frames and colour table and differ in the disposal byte of the last frame. -/
theorem C5_disposal_applies_to_next_witness :
    processGifFrames (firstFrames gifBackground (2 + 1)) =
      processGifFrames (firstFrames gifBackgroundB (2 + 1)) ∧
    (∀ out1 out2, processGifFrames gifBackground = .ok out1 →
      processGifFrames gifBackgroundB = .ok out2 → out1[2]? = out2[2]?) ∧
    (gifBackground.Image.length ≤ 2 + 1 →
      processGifFrames gifBackground = processGifFrames gifBackgroundB) :=
  C5_disposal_applies_to_next gifBackground gifBackgroundB 2 rfl rfl rfl
    (fun j hj => by interval_cases j <;> rfl)

/-- C6 (amended): for every frame sequence in which some frame i > 0 has bounds
not contained in the bounds of frame 0, `processGifFrames` raises no
out-of-bounds error: provided the disposal bytes and the background colour it
reads exist, it returns one realized frame per input frame, the frame is
clipped to the canvas (only its pixels at points of the canvas are drawn, over
the canvas the disposal switch left), and realized frame i has the bounds of
frame 0. -/
theorem C6_frame_outside_canvas_is_clipped (g : gif.GIF) (i : Nat)
    (im0 fr : image.Paletted) (hi : 0 < i) (h0 : g.Image[0]? = some im0)
    (hfr : g.Image[i]? = some fr) (_hout : fr.Bounds.In im0.Bounds = false)
    (hd : g.Image.length ≤ g.Disposal.length)
    (hbg : gif.DisposalBackground ∈ g.Disposal.take (g.Image.length - 1) →
      ∃ col, bgColor g = .ok col) :
    ∃ out prev cv cur, processGifFrames g = .ok out ∧ out.length = g.Image.length ∧
      out[i - 1]? = some prev ∧ dispose g i prev = .ok cv ∧ out[i]? = some cur ∧
      cur.Bounds = im0.Bounds ∧
      ∀ p : image.Point, cur.Pix p =
        if (p.In fr.Bounds && p.In im0.Bounds) = true then
          draw.overPixel (cv.Pix p) (fr.RGBA64At p)
        else cv.Pix p := by
  have hilt : i < g.Image.length := by
    by_contra hcon
    rw [List.getElem?_eq_none (by omega)] at hfr
    cases hfr
  obtain ⟨out, hout⟩ := realize_ok g g.Image 0 (image.NewRGBA im0.Bounds)
    (disposeOk_of_lengths g hd hbg)
  have hlen := realize_length g _ _ _ _ hout
  obtain ⟨c1, hc1, hcur⟩ := realize_getElem g _ _ _ _ hout i fr hfr
  have hprev : out[i - 1]? = some out[i - 1] := List.getElem?_eq_getElem (by omega)
  have hlast : lastCanvas (image.NewRGBA im0.Bounds) (List.take i out) = out[i - 1] := by
    have := lastCanvas_take_succ (image.NewRGBA im0.Bounds) out (i - 1) _ hprev
    rwa [show i - 1 + 1 = i by omega] at this
  rw [Nat.zero_add, hlast] at hc1
  have hrect : (drawFrame c1 fr).Rect = im0.Bounds :=
    realize_Rect g _ _ _ _ hout _ (List.getElem?_mem hcur)
  have hc1rect : c1.Rect = im0.Bounds := by rw [← drawFrame_Rect c1 fr]; exact hrect
  refine ⟨out, out[i - 1], c1, drawFrame c1 fr, ?_, hlen, hprev, hc1, hcur, hrect, ?_⟩
  · rw [processGifFrames_eq_realize, h0]; exact hout
  · intro p
    rw [drawFrame_Pix, image.RGBA.Bounds, hc1rect]

/-- C6, at a concrete input: frame 1 of `gifOutside` is twice as wide as the
canvas. -/
theorem C6_frame_outside_canvas_is_clipped_witness :
    (solidFrame (rect 0 0 2 1) green).Bounds.In (solidFrame (rect 0 0 1 1) red).Bounds = false ∧
    ∃ out prev cv cur, processGifFrames gifOutside = .ok out ∧
      out.length = gifOutside.Image.length ∧
      out[1 - 1]? = some prev ∧ dispose gifOutside 1 prev = .ok cv ∧ out[1]? = some cur ∧
      cur.Bounds = (solidFrame (rect 0 0 1 1) red).Bounds ∧
      ∀ p : image.Point, cur.Pix p =
        if (p.In (solidFrame (rect 0 0 2 1) green).Bounds &&
            p.In (solidFrame (rect 0 0 1 1) red).Bounds) = true then
          draw.overPixel (cv.Pix p) ((solidFrame (rect 0 0 2 1) green).RGBA64At p)
        else cv.Pix p :=
  ⟨by decide, C6_frame_outside_canvas_is_clipped gifOutside 1 (solidFrame (rect 0 0 1 1) red)
    (solidFrame (rect 0 0 2 1) green) (by decide) rfl rfl (by decide) (by decide)
    (fun h => absurd h (by decide))⟩

/-- C6 as stated fails: frame 1 of `gifOutside` is not contained in the bounds
of frame 0, and `processGifFrames` returns two realized frames of the size of
the canvas, the second one showing the part of frame 1 inside the canvas. -/
theorem C6_counterexample :
    (solidFrame (rect 0 0 2 1) green).Bounds.In (solidFrame (rect 0 0 1 1) red).Bounds = false ∧
    pixelsOf (processGifFrames gifOutside) = .ok [[⟨255, 0, 0, 255⟩], [⟨0, 255, 0, 255⟩]] :=
  ⟨by decide, rfl⟩

/-- C7 (amended): for the empty frame sequence `processGifFrames` returns no
frame list and no error value either: it stops at `g.Image[0]` with the
run-time panic "index out of range [0] with length 0". -/
theorem C7_empty_input_panics (g : gif.GIF) (h : g.Image.length = 0) :
    processGifFrames g = .error (Panic.indexOutOfRange 0 0) := by
  have hnil : g.Image = [] := List.length_eq_zero.1 h
  unfold processGifFrames
  simp [hnil]

/-- C7, at the input without frames. -/
theorem C7_empty_input_panics_witness :
    gifEmpty.Image.length = 0 ∧
    processGifFrames gifEmpty = .error (Panic.indexOutOfRange 0 0) :=
  ⟨rfl, C7_empty_input_panics gifEmpty rfl⟩

/-- C7 as stated fails: on the input without frames the run does abort through
the unguarded index access `g.Image[0]`. -/
theorem C7_counterexample : abortsOnIndex (processGifFrames gifEmpty) = true := rfl

/-- C8: the draw step of `processGifFrames` is source-over compositing per pixel
inside the frame's bounds. At a point common to frame and canvas, with canvas
bytes d and a premultiplied source colour s (channels at most alpha, alpha at
most 0xffff): each channel of the result is the linear blend
`s + d16 * (0xffff - alpha) / 0xffff` of the 16-bit values, `d16 = 257 * d`,
cut to its high byte; a fully covering s (alpha 0xffff) yields the bytes of s,
exactly the 8-bit colour s was made from; a fully transparent s yields d;
and white with alpha 128 of 255 drawn over black with alpha 255 yields
128, 128, 128 with alpha 255. -/
theorem C8_draw_is_source_over (c : image.RGBA) (src : image.Paletted) (p : image.Point)
    (hp : p.In src.Bounds = true) (hpc : p.In c.Bounds = true)
    (hd : (c.Pix p).R < 256 ∧ (c.Pix p).G < 256 ∧ (c.Pix p).B < 256 ∧ (c.Pix p).A < 256)
    (hs : (src.At p).r ≤ (src.At p).a ∧ (src.At p).g ≤ (src.At p).a ∧
      (src.At p).b ≤ (src.At p).a ∧ (src.At p).a ≤ 65535) :
    ((draw.DrawOver c src.Bounds src src.Bounds.Min).Pix p =
      ⟨(257 * (c.Pix p).R * (65535 - (src.At p).a) + 65535 * (src.At p).r) / (256 * 65535),
       (257 * (c.Pix p).G * (65535 - (src.At p).a) + 65535 * (src.At p).g) / (256 * 65535),
       (257 * (c.Pix p).B * (65535 - (src.At p).a) + 65535 * (src.At p).b) / (256 * 65535),
       (257 * (c.Pix p).A * (65535 - (src.At p).a) + 65535 * (src.At p).a) / (256 * 65535)⟩) ∧
    ((src.At p).a = 65535 →
      (draw.DrawOver c src.Bounds src src.Bounds.Min).Pix p = (src.At p).to8 ∧
      ∀ x : color.RGBA, (x.R < 256 ∧ x.G < 256 ∧ x.B < 256 ∧ x.A < 256) →
        src.At p = x.toColor → (draw.DrawOver c src.Bounds src src.Bounds.Min).Pix p = x) ∧
    ((src.At p).a = 0 → (draw.DrawOver c src.Bounds src src.Bounds.Min).Pix p = c.Pix p) ∧
    pixelsOf (processGifFrames gifBlend) =
      .ok [[⟨0, 0, 0, 255⟩], [⟨128, 128, 128, 255⟩]] := by
  have hblend := drawFrame_blend c src p hp hpc hd hs
  obtain ⟨d1, d2, d3, d4⟩ := hd
  obtain ⟨s1, s2, s3, s4⟩ := hs
  have hsolid : (src.At p).a = 65535 →
      (draw.DrawOver c src.Bounds src src.Bounds.Min).Pix p = (src.At p).to8 := by
    intro ha
    have e := hblend
    rw [ha] at e
    rw [ha] at s1 s2 s3
    rw [blend_solid _ _ s1, blend_solid _ _ s2, blend_solid _ _ s3,
      blend_solid _ _ (le_refl _)] at e
    rw [show draw.DrawOver c src.Bounds src src.Bounds.Min = drawFrame c src from rfl, e]
    simp only [color.Color.to8, ha]
  refine ⟨hblend, ?_, ?_, rfl⟩
  · intro ha
    refine ⟨hsolid ha, ?_⟩
    intro x hx hsx
    rw [hsolid ha, hsx, to8_toColor x hx]
  · intro ha
    have e := hblend
    rw [ha] at s1 s2 s3
    have r0 : (src.At p).r = 0 := by omega
    have g0 : (src.At p).g = 0 := by omega
    have b0 : (src.At p).b = 0 := by omega
    rw [ha, r0, g0, b0, blend_clear _ d1, blend_clear _ d2, blend_clear _ d3,
      blend_clear _ d4] at e
    exact e

/-- C8, at a concrete input: a black pixel with alpha 255 on the canvas, white
with alpha 128 of 255 in the frame. -/
theorem C8_draw_is_source_over_witness :
    (draw.DrawOver ⟨fun _ => ⟨0, 0, 0, 255⟩, rect 0 0 1 1⟩ (rect 0 0 1 1)
      (solidFrame (rect 0 0 1 1) (color.NRGBA 255 255 255 128)) ⟨0, 0⟩).Pix ⟨0, 0⟩ =
      ⟨128, 128, 128, 255⟩ :=
  (C8_draw_is_source_over ⟨fun _ => ⟨0, 0, 0, 255⟩, rect 0 0 1 1⟩
    (solidFrame (rect 0 0 1 1) (color.NRGBA 255 255 255 128)) ⟨0, 0⟩ rfl rfl
    (by decide) (by decide)).1

/-- C10: the RestoreToPrevious branch never changes the canvas. In the loop of
`processGifFrames` the pointer `prevFrame` is nil or equal to `bg`, so that
`bg = prevFrame` leaves `bg` as it is: for every input g the outcome of
`processGifFrames(g)` is the outcome for g with every DisposalPrevious entry
replaced by DisposalNone, and a frame that follows a RestoreToPrevious frame is
drawn over the canvas left by that frame's draw. -/
theorem C10_restore_previous_is_noop (g : gif.GIF) :
    processGifFrames g = processGifFrames (withoutPrevious g) ∧
    (∀ (n : Nat) (st : LoopState), stateAfter g n = .ok st →
      st.prevFrame = none ∨ st.prevFrame = some st.bg) ∧
    ∀ (i : Nat) (fr : image.Paletted) (out : List image.RGBA), 0 < i →
      g.Image[i]? = some fr → g.Disposal[i - 1]? = some gif.DisposalPrevious →
      processGifFrames g = .ok out →
      ∃ prev cur, out[i - 1]? = some prev ∧ out[i]? = some cur ∧
        cur = draw.DrawOver prev fr.Bounds fr fr.Bounds.Min := by
  refine ⟨?_, prevFrame_aliases_bg g, ?_⟩
  · rw [processGifFrames_eq_realize, processGifFrames_eq_realize]
    have hI : (withoutPrevious g).Image = g.Image := rfl
    rw [hI]
    cases g.Image[0]? with
    | none => rfl
    | some im0 =>
      simp only
      exact (realize_congr (withoutPrevious g) g g.Image 0 _
        (fun k c1 _ _ => dispose_withoutPrevious g k c1)).symm
  · intro i fr out hi hfr hd hout
    obtain ⟨prev, cur, h1, h2, h3, _⟩ :=
      realized_over_previous g i gif.DisposalPrevious fr out hi hfr hd (by decide) hout
    exact ⟨prev, cur, h1, h2, h3⟩

/-- C10, at a concrete input: `gifPrevious`, whose frame 1 has disposal
RestoreToPrevious, gives the frames of the same input without that disposal,
and its realized frame 2 still shows the green pixel frame 1 drew. -/
theorem C10_restore_previous_is_noop_witness :
    pixelsOf (processGifFrames gifPrevious) =
      .ok [[⟨255, 0, 0, 255⟩, ⟨255, 0, 0, 255⟩], [⟨0, 255, 0, 255⟩, ⟨255, 0, 0, 255⟩],
        [⟨0, 255, 0, 255⟩, ⟨0, 0, 255, 255⟩]] ∧
    processGifFrames gifPrevious = processGifFrames (withoutPrevious gifPrevious) :=
  ⟨rfl, (C10_restore_previous_is_noop gifPrevious).1⟩

end GifFrames
